import Mathlib

/-!
# Battle Sandbox — verification of the simulation engine

A shallow embedding of the combat engine of `src/js/main.js` (the Arena
simulation: effect resolution, damage-over-time decay, cast selection,
projectile update, per-tick hp clamping, and the ability compiler), with
theorems settling the specification's claims about it.

Conventions of the embedding:
* JS numbers are modelled as `ℚ` (exact arithmetic); the two places where the
  source leaves the rationals — `Math.pow(0.2, dt)` (velocity friction) and the
  `Math.hypot` normalisation of direction vectors — are modelled over `ℝ` in a
  dedicated section, or passed in as explicit parameters of the tick.
* JS `x || default` on a numeric field is `orDefault`: `0` (and a missing
  field, which JS treats the same way here) selects the default.
* Comparisons of Euclidean distances against nonnegative bounds
  (`dist(p,q) < 18`, `d <= max(20, range)`) are embedded as the equivalent
  comparisons of squared distances, which keeps the model inside `ℚ`.
* `while (d.t >= 1) { ... }` is embedded as a fuel recursion whose fuel
  `(⌊t⌋).toNat` is exactly the number of iterations the while loop performs;
  each step still re-checks the loop guard, so the function is extensionally
  the source loop.
* Script callbacks (`onCast`, `onHit`) are arbitrary JS closures; the tick
  model instantiates them with their idiomatic engine forms: `onCast` as the
  default of `Ability.make` (`world.applyEffects(this.effects, self, target)`),
  `onHit` as the template's `(hit) => world.applyEffects(this.effects, self, hit)`.
-/

namespace BattleSandbox

/-- JS `x || d` for a numeric slot: `0` (or an absent field, which behaves the
same way in the source's uses) falls back to the default `d`. -/
def orDefault (x d : ℚ) : ℚ := if x = 0 then d else x

/-- main.js line 4: `clamp = (x, a, b) => Math.max(a, Math.min(b, x))`. -/
def clamp (x a b : ℚ) : ℚ := max a (min b x)

/-- JS `Math.sign`. -/
def sgn (x : ℚ) : ℚ := if x < 0 then -1 else if 0 < x then 1 else 0

/-- A 2D point/vector, main.js `vec`. -/
structure Vec where
  x : ℚ
  y : ℚ
deriving DecidableEq

/-- main.js line 6: `dist2 = (a,b) => (a.x-b.x)*(a.x-b.x) + (a.y-b.y)*(a.y-b.y)`.
The source compares `dist = Math.hypot(...)` against nonnegative bounds; the
model compares `dist2` against the squared bounds, which is equivalent. -/
def dist2 (a b : Vec) : ℚ := (a.x - b.x) * (a.x - b.x) + (a.y - b.y) * (a.y - b.y)

/-- A damage kind, the `dtype` tags `"physical" | "magical" | "both"` that the
`Effects` factories produce. -/
inductive DKind where
  | physical
  | magical
  | both
deriving DecidableEq

/-- The tagged effect variants produced by the `Effects` helpers
(main.js lines 48-54). Rendering-only data is not modelled. -/
inductive Effect where
  | damage (amount : ℚ) (dtype : DKind)
  | dot (dps duration : ℚ) (dtype : DKind)
  | immunity (dtype : DKind) (duration : ℚ)
  | timeFreeze (duration : ℚ)
  | knockback (force : ℚ)
deriving DecidableEq

/-- Fighter base stats (the StatsEditor record; `canFly` is unused by the
engine and omitted). Immutable during a battle. -/
structure Stats where
  hp : ℚ
  physicalStrength : ℚ
  physicalResistance : ℚ
  magicalPower : ℚ
  magicalResistance : ℚ
  moveSpeed : ℚ
  attackSpeed : ℚ
deriving DecidableEq

/-- A runtime DoT record, main.js line 303: `{dps, duration, t, dtype}`. -/
structure DotRec where
  dps : ℚ
  duration : ℚ
  t : ℚ
  dtype : DKind
deriving DecidableEq

/-- A validated ability as the engine consumes it (name, type, cooldown,
range, effect list). `appearance` is rendering-only; `onCast` is modelled as
the default of `Ability.make`: `world.applyEffects(this.effects, self, target)`. -/
structure Ability where
  name : String
  atype : String
  cooldown : ℚ
  range : ℚ
  effects : List Effect

/-- Mutable fighter runtime state (main.js `makeFighter`, lines 225-234).
`imms` is the `immunities` object keyed by damage kind; `cd` is the
per-ability-name cooldown map, total with default 0 as the tick initialises
missing keys to 0. -/
structure FState where
  hp : ℚ
  pos : Vec
  vel : Vec
  facing : ℚ
  dots : List DotRec
  imms : DKind → ℚ
  freeze : ℚ
  cd : String → ℚ

/-- A fighter: immutable base stats plus runtime state plus its ordered
ability list. -/
structure Fighter where
  name : String
  base : Stats
  state : FState
  abilities : List Ability

/-- main.js lines 316-319, `Arena.isImmune`. -/
def isImmune (st : FState) (dtype : DKind) : Bool :=
  match dtype with
  | .both => decide (0 < st.imms .both) ||
      (decide (0 < st.imms .physical) && decide (0 < st.imms .magical))
  | k => decide (0 < st.imms k) || decide (0 < st.imms .both)

/-- main.js line 287, `Arena.timeFreeze`:
`target.state.freeze = Math.max(target.state.freeze, duration||1)`. -/
def timeFreezeOp (target : Fighter) (duration : ℚ) : Fighter :=
  {target with state.freeze := max target.state.freeze (orDefault duration 1)}

/-- One iteration of main.js lines 289-313, the body of `applyEffects` for a
single effect applied by `caster` to `target`. -/
def applyEffect (caster target : Fighter) (e : Effect) : Fighter :=
  match e with
  | .damage amount dtype =>
    if isImmune target.state dtype then target
    else
      let amt := orDefault amount 0
      let amt :=
        match dtype with
        | .physical => amt * 100 / (100 + target.base.physicalResistance)
        | .magical => amt * 100 / (100 + target.base.magicalResistance)
        | .both =>
            amt / 2 * 100 / (100 + target.base.physicalResistance) +
            amt / 2 * 100 / (100 + target.base.magicalResistance)
      {target with state.hp := target.state.hp - amt}
  | .dot dps duration dtype =>
    if isImmune target.state dtype then target
    else
      {target with state.dots :=
        (target.state.dots ++ [⟨orDefault dps 0, orDefault duration 0, 0, dtype⟩])}
  | .immunity dtype duration =>
    {target with state.imms :=
      (Function.update target.state.imms dtype
        (max (orDefault (target.state.imms dtype) 0) (orDefault duration 0)))}
  | .timeFreeze duration => timeFreezeOp target (orDefault duration 1)
  | .knockback force =>
    {target with state.vel :=
      (⟨target.state.vel.x + sgn (target.state.pos.x - caster.state.pos.x) * orDefault force 80 / 2,
        target.state.vel.y + sgn (target.state.pos.y - caster.state.pos.y) * orDefault force 80 / 2⟩ : Vec)}

/-- main.js lines 288-315, `Arena.applyEffects`: the effects are applied to the
target in list order. The caster is only read (its position, for knockback),
matching the source, where `applyEffects` never mutates the caster. -/
def applyEffects (effects : List Effect) (caster target : Fighter) : Fighter :=
  effects.foldl (applyEffect caster) target

/-- Output of the DoT while-loop of main.js lines 328-332: the sub-second
accumulator, the remaining duration, the fighter hp, and (ghost data for the
batching claims) the number of damage pulses that fired. -/
structure PulseOut where
  t : ℚ
  duration : ℚ
  hp : ℚ
  pulses : ℕ

/-- Fuel recursion for `while(d.t >= 1){ d.t -= 1; if(!immune) hp -= dps;
d.duration -= 1; }` (main.js lines 328-332). The guard `1 ≤ t` is re-checked
at every step, so for any fuel at least the number of iterations the loop
performs this is extensionally the source loop; `runPulses` supplies exactly
that fuel. Note the loop does not test `duration`, exactly as the source. -/
def pulseLoop (immune : Bool) (dps : ℚ) : ℕ → ℚ → ℚ → ℚ → PulseOut
  | 0, t, duration, hp => ⟨t, duration, hp, 0⟩
  | fuel + 1, t, duration, hp =>
    if 1 ≤ t then
      let r := pulseLoop immune dps fuel (t - 1) (duration - 1)
        (if immune then hp else hp - dps)
      {r with pulses := r.pulses + 1}
    else ⟨t, duration, hp, 0⟩

/-- The DoT while-loop run to completion: the loop decrements `t` by 1 per
iteration, so it iterates exactly `(⌊t⌋).toNat` times. -/
def runPulses (immune : Bool) (dps t duration hp : ℚ) : PulseOut :=
  pulseLoop immune dps (Int.toNat ⌊t⌋) t duration hp

/-- main.js lines 324-333: the per-fighter DoT pass. The source iterates from
the last record to the first, splicing out records whose duration is already
`≤ 0`; since each record is processed independently and the hp updates
commute, this forward pass is extensionally the same. Returns the surviving
records (order preserved), the resulting hp, and the total pulse count. -/
def tickDotsAux (dt : ℚ) (immF : DKind → Bool) : List DotRec → ℚ → List DotRec × ℚ × ℕ
  | [], hp => ([], hp, 0)
  | d :: rest, hp =>
    if d.duration ≤ 0 then tickDotsAux dt immF rest hp
    else
      let r := runPulses (immF d.dtype) d.dps (d.t + dt) d.duration hp
      let o := tickDotsAux dt immF rest r.hp
      ({d with t := r.t, duration := r.duration} :: o.1, o.2.1, r.pulses + o.2.2)

/-- main.js lines 334-337: immunity timers decay by `dt` while positive. -/
def decayImms (dt : ℚ) (imms : DKind → ℚ) : DKind → ℚ :=
  fun k => if 0 < imms k then imms k - dt else imms k

/-- main.js lines 338-343: cooldown timers decay by `dt`, floored at 0,
sequentially over the ability list (missing keys are initialised to 0, which
the total map models by its defaults). -/
def decayCds (dt : ℚ) (abilities : List Ability) (cd : String → ℚ) : String → ℚ :=
  abilities.foldl (fun c a => Function.update c a.name (max 0 (c a.name - dt))) cd

/-- main.js lines 322-344: the per-fighter status decay phase, in source
order dots → immunities → cooldowns. The second component is the total number
of DoT pulses fired (ghost data used by the batching claims). -/
def statusStep (dt : ℚ) (f : Fighter) : Fighter × ℕ :=
  let r := tickDotsAux dt (fun k => isImmune f.state k) f.state.dots f.state.hp
  ({f with state := {f.state with
      dots := r.1
      hp := r.2.1
      imms := decayImms dt f.state.imms
      cd := decayCds dt f.abilities f.state.cd}}, r.2.2)

/-- The status decay phase iterated over a sequence of frame deltas,
accumulating the DoT pulse count. -/
def runStatus (dts : List ℚ) (f : Fighter) : Fighter × ℕ :=
  dts.foldl (fun p dt => let r := statusStep dt p.1; (r.1, p.2 + r.2)) (f, 0)

/-- A live projectile (main.js lines 277-285). `shape`/`tint` are
rendering-only and omitted; the arbitrary `onHit` closure is modelled by the
engine's idiomatic form, `(hit) => world.applyEffects(this.effects, self, hit)`
(the template and both prefilled ability scripts), so the projectile carries
its effect list and which of the two fighters cast it. -/
structure Projectile where
  pos : Vec
  vel : Vec
  ttl : ℚ
  alive : Bool
  effects : List Effect
  casterIsA : Bool

/-- The collision loop of main.js lines 354-360 on a projectile at `ppos`:
the indices of every fighter within the fixed 18px hit radius, in fighter
order. The source does not break out of the loop after a hit, so the whole
list of indices receives `onHit`. `dist(p, f) < 18` is embedded as
`dist2 p f < 18^2`. -/
def projColl (ppos : Vec) (fpos : List Vec) : List ℕ :=
  (fpos.enum.filter (fun q => decide (dist2 ppos q.2 < 18 ^ 2))).map (fun q => q.1)

/-- main.js lines 347-361: one projectile's update for one tick. Returns the
updated projectile and the indices of the fighters its `onHit` fires on. -/
def stepProjectile (dt : ℚ) (fpos : List Vec) (p : Projectile) : Projectile × List ℕ :=
  if p.alive = false then (p, [])
  else
    let ttl := p.ttl - dt
    if ttl ≤ 0 then ({p with ttl := ttl, alive := false}, [])
    else
      let pos : Vec := ⟨p.pos.x + p.vel.x * dt, p.pos.y + p.vel.y * dt⟩
      let hits := projColl pos fpos
      ({p with pos := pos, ttl := ttl, alive := hits.isEmpty}, hits)

/-- main.js line 363: dead projectiles are purged after the update pass. -/
def cleanupProjectiles (ps : List Projectile) : List Projectile :=
  ps.filter (fun p => p.alive)

/-- Application of a projectile's `onHit` to the hit fighters in loop order
(fighter A is index 0, fighter B index 1), each via `applyEffects` with the
projectile's caster. Effects never move a fighter, so resolving them after
collecting the collision list is extensionally the source's interleaving. -/
def projApply (p : Projectile) (hits : List ℕ) (fA fB : Fighter) : Fighter × Fighter :=
  hits.foldl (fun fs i =>
    let caster := if p.casterIsA then fs.1 else fs.2
    if i = 0 then (applyEffects p.effects caster fs.1, fs.2)
    else (fs.1, applyEffects p.effects caster fs.2)) (fA, fB)

/-- main.js lines 346-363: the projectile pass over the projectile list, with
each projectile's hits resolved against the two fighters. -/
def projectilePhase (dt : ℚ) : List Projectile → Fighter → Fighter → List Projectile × Fighter × Fighter
  | [], fA, fB => ([], fA, fB)
  | p :: rest, fA, fB =>
    let s := stepProjectile dt [fA.state.pos, fB.state.pos] p
    let fs := projApply s.1 s.2 fA fB
    let o := projectilePhase dt rest fs.1 fs.2
    (s.1 :: o.1, o.2.1, o.2.2)

/-- main.js lines 401-410: the cast scan. `dsq` is the squared distance `d*d`
computed at line 375 (before the movement of lines 381-392, exactly as the
source uses it); `d <= max(20, range)` is embedded as the equivalent
`dsq ≤ (max 20 range)^2`. The first ability with cooldown `≤ 0` that is in
range is cast: its cooldown is set to
`max(0.1, (cooldown||1) / max(0.1, attackSpeed))` and the scan stops. -/
def castScan (dsq attackSpeed : ℚ) : List Ability → (String → ℚ) → (String → ℚ) × Option Ability
  | [], cd => (cd, none)
  | a :: rest, cd =>
    if 0 < cd a.name then castScan dsq attackSpeed rest cd
    else if dsq ≤ (max 20 (orDefault a.range 0)) ^ 2 then
      (Function.update cd a.name
        (max (1 / 10) (orDefault a.cooldown 1 / max (1 / 10) attackSpeed)), some a)
    else castScan dsq attackSpeed rest cd

/-- The arena rectangle of main.js line 258. -/
structure Bounds where
  x : ℚ
  y : ℚ
  w : ℚ
  h : ℚ

/-- main.js lines 369-411: one fighter's AI/movement/cast turn against its
opponent. `pow02` stands for `Math.pow(0.2, dt)` and `dirUnit` for the
`Math.hypot`-normalised direction of lines 376-378; both are irrational in
general and are therefore parameters, which every theorem quantifies over.
The kite/chase comparisons `d < desired` / `d > desired` are embedded as the
equivalent squared comparisons (`desired` is 20 or `maxRange*0.8 ≥ 32`, so
both sides are nonnegative). A cast invokes the default `onCast`:
`world.applyEffects(this.effects, self, target)`. -/
def aiStep (dt pow02 : ℚ) (dirUnit : Vec) (b : Bounds) (me op : Fighter) : Fighter × Fighter :=
  if 0 < me.state.freeze then
    ({me with state.freeze := me.state.freeze - dt}, op)
  else
    let maxRange := me.abilities.foldl (fun m a => max m (orDefault a.range 0)) 0
    let desired := if 40 ≤ maxRange then maxRange * (8 / 10) else 20
    let dsq := dist2 me.state.pos op.state.pos
    let speed := me.base.moveSpeed
    let pos1 : Vec :=
      if 40 ≤ maxRange ∧ dsq < desired ^ 2 then
        ⟨me.state.pos.x - dirUnit.x * speed * dt, me.state.pos.y - dirUnit.y * speed * dt⟩
      else if ¬ 40 ≤ maxRange ∧ desired ^ 2 < dsq then
        ⟨me.state.pos.x + dirUnit.x * speed * dt, me.state.pos.y + dirUnit.y * speed * dt⟩
      else me.state.pos
    let pos2 : Vec := ⟨pos1.x + me.state.vel.x * dt, pos1.y + me.state.vel.y * dt⟩
    let vel : Vec := ⟨me.state.vel.x * pow02, me.state.vel.y * pow02⟩
    let pos3 : Vec := ⟨clamp pos2.x b.x (b.x + b.w), clamp pos2.y b.y (b.y + b.h)⟩
    let facing : ℚ := if pos3.x < op.state.pos.x then 1 else -1
    let c := castScan dsq me.base.attackSpeed me.abilities me.state.cd
    let me1 : Fighter := {me with state := {me.state with
        pos := pos3
        vel := vel
        facing := facing
        cd := c.1}}
    match c.2 with
    | none => (me1, op)
    | some a => (me1, applyEffects a.effects me1 op)

/-- The simulation world owned by `Arena`: the two fighters, the projectile
list and the arena bounds. -/
structure World where
  fA : Fighter
  fB : Fighter
  projectiles : List Projectile
  bounds : Bounds

/-- main.js lines 414-417: the end-of-tick hp floor, `if (hp <= 0) hp = 0`. -/
def clampDeath (f : Fighter) : Fighter :=
  if f.state.hp ≤ 0 then {f with state.hp := 0} else f

/-- main.js lines 320-418, `Arena.tick`: status decay for both fighters, then
the projectile pass, then the AI/movement/cast pairs `[A,B]` and `[B,A]` (the
second pair sees the first pair's mutations), then the hp floor. Dead
projectiles are purged at the end of the projectile pass. -/
def tick (dt pow02 : ℚ) (dirA dirB : Vec) (w : World) : World :=
  let fA := (statusStep dt w.fA).1
  let fB := (statusStep dt w.fB).1
  let pr := projectilePhase dt w.projectiles fA fB
  let ai1 := aiStep dt pow02 dirA w.bounds pr.2.1 pr.2.2
  let ai2 := aiStep dt pow02 dirB w.bounds ai1.2 ai1.1
  { fA := clampDeath ai2.2
    fB := clampDeath ai2.1
    projectiles := cleanupProjectiles pr.1
    bounds := w.bounds }

/-- A raw ability record as an author's script returns it, before
`Ability.make` fills defaults (main.js lines 57-77): each engine-relevant
field either present or absent. A field that is present but of the wrong JS
type is equivalent to an invalid value for the validator's purposes. -/
structure AbilitySpec where
  name : Option String
  atype : Option String
  cooldown : Option ℚ
  range : Option ℚ
  effects : Option (List Effect)

/-- main.js lines 57-77, `Ability.make`: fill defaults (type `"status"`,
cooldown 2.0, range 20, empty effects), then validate; `none` models a
thrown validation error (`type` outside the four-member enum, cooldown not
positive, range negative). -/
def Ability.make (s : AbilitySpec) : Option Ability :=
  let a : Ability :=
    { name := s.name.getD "Ability"
      atype := s.atype.getD "status"
      cooldown := s.cooldown.getD 2
      range := s.range.getD 20
      effects := s.effects.getD [] }
  if a.atype ∈ ["physical", "magical", "both", "status"] then
    if 0 < a.cooldown then
      if 0 ≤ a.range then some a else none
    else none
  else none

/-- What invoking a compiled ability script can come to, as `compileAbilities`
(main.js lines 189-214) distinguishes the cases: the `new Function`
compilation itself throws (structural failure), the invocation throws, the
invocation returns a non-array, or it returns an array of records. -/
inductive ScriptOutcome where
  | syntaxError
  | throws
  | returnsNonArray
  | returns (records : List AbilitySpec)

/-- The validation-and-construction pass over a returned array (main.js
lines 204-208): the source first runs `Ability.make` on every record — the
first invalid one throws into the catch block, which returns null — and then
maps `Ability.make` over the array again. `Ability.make` is deterministic, so
that composite is this single Option-valued traversal. -/
def validateAll : List AbilitySpec → Option (List Ability)
  | [] => some []
  | r :: rest =>
    match Ability.make r with
    | none => none
    | some a =>
      match validateAll rest with
      | none => none
      | some l => some (a :: l)

/-- main.js lines 189-214, `compileAbilities`: `none` models the `return null`
of both catch blocks (structural failure of `new Function`, or a runtime
error: invocation throw, non-array result, or a record failing validation). -/
def compileAbilities : ScriptOutcome → Option (List Ability)
  | .syntaxError => none
  | .throws => none
  | .returnsNonArray => none
  | .returns rs => validateAll rs

/-- The caller's adoption step (main.js lines 551-558): `const c =
compileAbilities(...); if (c) compiled = c;` — a failed compile keeps the
previously loaded set. -/
def adoptCompiled (prev : List Ability) (o : ScriptOutcome) : List Ability :=
  (compileAbilities o).getD prev

/-- Position/velocity state over `ℝ` for the residual-velocity integration of
main.js lines 391-394, where `Math.pow(0.2, dt)` leaves the rationals. -/
structure MoveState where
  px : ℝ
  py : ℝ
  vx : ℝ
  vy : ℝ

/-- main.js lines 391-394: `pos += vel*dt` then `vel *= Math.pow(0.2, dt)`
on each axis. Real exponentiation is noncomputable, hence so is this
definition; its uses are purely propositional. -/
noncomputable def moveStep (dt : ℝ) (s : MoveState) : MoveState :=
  { px := s.px + s.vx * dt
    py := s.py + s.vy * dt
    vx := s.vx * (0.2 : ℝ) ^ dt
    vy := s.vy * (0.2 : ℝ) ^ dt }

/-- The movement integration over a sequence of frame deltas. -/
noncomputable def moveSteps (dts : List ℝ) (s : MoveState) : MoveState :=
  dts.foldl (fun st dt => moveStep dt st) s

/-- JS `x || d` over `ℝ`, for the defaults inside `spawnProjectile`. -/
noncomputable def orDefaultR (x d : ℝ) : ℝ := if x = 0 then d else x

/-- The normalising divisor of main.js line 275:
`Math.hypot(dir.x, dir.y) || 1`. -/
noncomputable def spawnDivisor (pfrom pto : ℝ × ℝ) : ℝ :=
  let dx := pto.1 - pfrom.1
  let dy := pto.2 - pfrom.2
  let L0 := Real.sqrt (dx * dx + dy * dy)
  if L0 = 0 then 1 else L0

/-- A freshly spawned projectile over `ℝ` (rendering fields and the `onHit`
closure omitted). -/
structure RProjectile where
  px : ℝ
  py : ℝ
  vx : ℝ
  vy : ℝ
  ttl : ℝ
  alive : Bool

/-- main.js lines 272-286, `Arena.spawnProjectile`: the direction is divided
by `Math.hypot(...) || 1` once at spawn and scaled by `speed || 220`;
`ttl = maxTime || 2`. -/
noncomputable def spawnProjectile (pfrom pto : ℝ × ℝ) (speed maxTime : ℝ) : RProjectile :=
  let dx := pto.1 - pfrom.1
  let dy := pto.2 - pfrom.2
  let L := spawnDivisor pfrom pto
  { px := pfrom.1
    py := pfrom.2
    vx := dx / L * orDefaultR speed 220
    vy := dy / L * orDefaultR speed 220
    ttl := orDefaultR maxTime 2
    alive := true }

/-! ## Helper lemmas and concrete sample data -/

theorem orDefault_zero (x : ℚ) : orDefault x 0 = x := by
  unfold orDefault; split <;> simp_all

/-- The hp removed from `target` by one Damage effect resolved through
`applyEffects`. -/
def hpDrop (caster target : Fighter) (amount : ℚ) (dtype : DKind) : ℚ :=
  target.state.hp - (applyEffects [Effect.damage amount dtype] caster target).state.hp

/-- The target with its physical resistance replaced. -/
def withPhysRes (f : Fighter) (r : ℚ) : Fighter := {f with base.physicalResistance := r}

/-- The target with its magical resistance replaced. -/
def withMagRes (f : Fighter) (r : ℚ) : Fighter := {f with base.magicalResistance := r}

theorem hpDrop_physical (c t : Fighter) (a : ℚ) (h : isImmune t.state .physical = false) :
    hpDrop c t a .physical = a * 100 / (100 + t.base.physicalResistance) := by
  simp [hpDrop, applyEffects, applyEffect, h, orDefault_zero]

theorem hpDrop_magical (c t : Fighter) (a : ℚ) (h : isImmune t.state .magical = false) :
    hpDrop c t a .magical = a * 100 / (100 + t.base.magicalResistance) := by
  simp [hpDrop, applyEffects, applyEffect, h, orDefault_zero]

theorem hpDrop_both (c t : Fighter) (a : ℚ) (h : isImmune t.state .both = false) :
    hpDrop c t a .both =
      a / 2 * 100 / (100 + t.base.physicalResistance)
      + a / 2 * 100 / (100 + t.base.magicalResistance) := by
  simp [hpDrop, applyEffects, applyEffect, h, orDefault_zero]

/-- The zero vector. -/
def zeroVec : Vec := ⟨0, 0⟩

/-- Concrete stats for witnesses: the StatsEditor defaults. -/
def sampleStats : Stats :=
  { hp := 100, physicalStrength := 10, physicalResistance := 20, magicalPower := 10
    magicalResistance := 20, moveSpeed := 120, attackSpeed := 1 }

/-- A concrete clean runtime state for witnesses. -/
def sampleState : FState :=
  { hp := 100, pos := zeroVec, vel := zeroVec, facing := 1, dots := []
    imms := fun _ => 0, freeze := 0, cd := fun _ => 0 }

/-- A concrete fighter for witnesses and counterexamples. -/
def sampleFighter : Fighter := ⟨"A", sampleStats, sampleState, []⟩

theorem sample_not_immune (k : DKind) : isImmune sampleState k = false := by
  cases k <;> simp [isImmune, sampleState]

/-! ## C1 — damage mitigation -/

/-- C1: a Damage effect applied by `applyEffects` to a non-immune target with
nonnegative resistances removes exactly `amount*100/(100+resist)` hp for
kind `physical`/`magical`, and the independently mitigated half-sum for kind
`both`; for `0 < amount` the mitigated amount is strictly decreasing in the
resistance, and at resistance 0 it equals the raw amount. (Amended: the
strict decrease requires a positive raw amount — a zero-amount Damage effect
is mitigated to 0 at every resistance, see the counterexample.) -/
theorem C1_damage_mitigation (c t : Fighter) (amount : ℚ)
    (himmP : isImmune t.state .physical = false)
    (himmM : isImmune t.state .magical = false)
    (himmB : isImmune t.state .both = false)
    (hrp : 0 ≤ t.base.physicalResistance) (hrm : 0 ≤ t.base.magicalResistance) :
    hpDrop c t amount .physical = amount * 100 / (100 + t.base.physicalResistance)
    ∧ hpDrop c t amount .magical = amount * 100 / (100 + t.base.magicalResistance)
    ∧ hpDrop c t amount .both =
        amount / 2 * 100 / (100 + t.base.physicalResistance)
        + amount / 2 * 100 / (100 + t.base.magicalResistance)
    ∧ (0 < amount → ∀ r₁ r₂ : ℚ, 0 ≤ r₁ → r₁ < r₂ →
        hpDrop c (withPhysRes t r₂) amount .physical
          < hpDrop c (withPhysRes t r₁) amount .physical
        ∧ hpDrop c (withMagRes t r₂) amount .magical
          < hpDrop c (withMagRes t r₁) amount .magical)
    ∧ (t.base.physicalResistance = 0 → hpDrop c t amount .physical = amount)
    ∧ (t.base.magicalResistance = 0 → hpDrop c t amount .magical = amount) := by
  have hmono : ∀ a r₁ r₂ : ℚ, 0 < a → 0 ≤ r₁ → r₁ < r₂ →
      a * 100 / (100 + r₂) < a * 100 / (100 + r₁) := by
    intro a r₁ r₂ ha h1 h12
    exact div_lt_div_of_pos_left (by positivity) (by linarith) (by linarith)
  refine ⟨hpDrop_physical c t amount himmP, hpDrop_magical c t amount himmM,
    hpDrop_both c t amount himmB, ?_, ?_, ?_⟩
  · intro ha r₁ r₂ h1 h12
    constructor
    · rw [hpDrop_physical c (withPhysRes t r₂) amount himmP,
        hpDrop_physical c (withPhysRes t r₁) amount himmP]
      exact hmono amount r₁ r₂ ha h1 h12
    · rw [hpDrop_magical c (withMagRes t r₂) amount himmM,
        hpDrop_magical c (withMagRes t r₁) amount himmM]
      exact hmono amount r₁ r₂ ha h1 h12
  · intro h0
    rw [hpDrop_physical c t amount himmP, h0]
    norm_num
  · intro h0
    rw [hpDrop_magical c t amount himmM, h0]
    norm_num

/-- Witness for C1 at the end-to-end example of the spec: amount 14, physical
resistance 20 — the hp drop is 14·100/120 = 35/3, and resistance 21 mitigates
strictly more. -/
theorem C1_damage_mitigation_witness :
    hpDrop sampleFighter sampleFighter 14 .physical = 35 / 3
    ∧ hpDrop sampleFighter (withPhysRes sampleFighter 21) 14 .physical
        < hpDrop sampleFighter (withPhysRes sampleFighter 20) 14 .physical := by
  have h := C1_damage_mitigation sampleFighter sampleFighter 14
    (sample_not_immune .physical) (sample_not_immune .magical) (sample_not_immune .both)
    (by norm_num [sampleFighter, sampleStats]) (by norm_num [sampleFighter, sampleStats])
  refine ⟨?_, ?_⟩
  · rw [h.1]
    norm_num [sampleFighter, sampleStats]
  · have h4 := h.2.2.2.1 (by norm_num) 20 21 (by norm_num) (by norm_num)
    have : withPhysRes sampleFighter 20 = sampleFighter := by
      simp [withPhysRes, sampleFighter, sampleStats]
    exact h4.1

/-- Counterexample to C1 as stated: for the (perfectly legal, factory-default)
zero-amount Damage effect, the mitigated amount is 0 at resistance 0 and at
resistance 1 alike, so it is not strictly decreasing in the resistance. -/
theorem C1_damage_mitigation_cex :
    hpDrop sampleFighter (withPhysRes sampleFighter 1) 0 .physical
      = hpDrop sampleFighter (withPhysRes sampleFighter 0) 0 .physical
    ∧ hpDrop sampleFighter (withPhysRes sampleFighter 0) 0 .physical = 0 := by
  rw [hpDrop_physical _ _ _ (sample_not_immune .physical),
    hpDrop_physical _ _ _ (sample_not_immune .physical)]
  norm_num

/-! ## C6 — immunity and freeze timers are max-merged, never additive -/

theorem applyEffects_immunity (c t : Fighter) (k : DKind) (d : ℚ) :
    applyEffects [Effect.immunity k d] c t
      = {t with state.imms :=
          (Function.update t.state.imms k (max (t.state.imms k) d))} := by
  simp [applyEffects, applyEffect, orDefault_zero]

theorem orDefault_one_idem (d : ℚ) : orDefault (orDefault d 1) 1 = orDefault d 1 := by
  unfold orDefault
  split <;> simp_all

theorem applyEffects_timeFreeze (c t : Fighter) (d : ℚ) :
    applyEffects [Effect.timeFreeze d] c t
      = {t with state.freeze := max t.state.freeze (orDefault d 1)} := by
  simp [applyEffects, applyEffect, timeFreezeOp, orDefault_one_idem]

/-- C6: an Immunity effect sets `immunities[kind] = max(current, duration)`
(touching no other channel), and a TimeFreeze effect — like `world.timeFreeze`
— sets `freeze = max(current, duration || 1)`; i.e. the claimed
`max(current, duration)` for every nonzero duration, a zero duration falling
back to the factory default 1 (see the counterexample). Both timers are never
additive: applying the same effect twice equals applying it once, and an
application whose effective duration is at most the current timer leaves the
timer unchanged. -/
theorem C6_timer_max_semantics (c t : Fighter) (k : DKind) (d : ℚ) :
    (applyEffects [Effect.immunity k d] c t).state.imms k = max (t.state.imms k) d
    ∧ (∀ k2, k2 ≠ k → (applyEffects [Effect.immunity k d] c t).state.imms k2 = t.state.imms k2)
    ∧ applyEffects [Effect.immunity k d] c (applyEffects [Effect.immunity k d] c t)
        = applyEffects [Effect.immunity k d] c t
    ∧ (d ≤ t.state.imms k →
        (applyEffects [Effect.immunity k d] c t).state.imms = t.state.imms)
    ∧ (applyEffects [Effect.timeFreeze d] c t).state.freeze
        = max t.state.freeze (orDefault d 1)
    ∧ (timeFreezeOp t d).state.freeze = max t.state.freeze (orDefault d 1)
    ∧ applyEffects [Effect.timeFreeze d] c (applyEffects [Effect.timeFreeze d] c t)
        = applyEffects [Effect.timeFreeze d] c t
    ∧ (d ≠ 0 → d ≤ t.state.freeze →
        (applyEffects [Effect.timeFreeze d] c t).state.freeze = t.state.freeze) := by
  refine ⟨?_, ?_, ?_, ?_, ?_, ?_, ?_, ?_⟩
  · rw [applyEffects_immunity]
    simp
  · intro k2 hk2
    rw [applyEffects_immunity]
    simp [Function.update_noteq hk2]
  · simp only [applyEffects_immunity]
    simp [Function.update_same, Function.update_idem, max_assoc]
  · intro hd
    rw [applyEffects_immunity]
    simp only [max_eq_left hd]
    simp [Function.update_eq_self]
  · rw [applyEffects_timeFreeze]
  · simp [timeFreezeOp]
  · simp only [applyEffects_timeFreeze]
    simp [max_assoc]
  · intro hd0 hdle
    rw [applyEffects_timeFreeze]
    simp [orDefault, hd0, max_eq_left hdle]

/-- Witness for C6 at a concrete input: a fighter with 1.5s of physical
immunity granted a 1s physical immunity keeps the 1.5s timer. -/
theorem C6_timer_max_semantics_witness :
    (applyEffects [Effect.immunity .physical 1] sampleFighter
        ({sampleFighter with state.imms := fun _ => 3 / 2})).state.imms
      = (fun _ => (3 : ℚ) / 2)
    ∧ (applyEffects [Effect.timeFreeze 1] sampleFighter
        ({sampleFighter with state.freeze := 3 / 2})).state.freeze = 3 / 2 := by
  have h := C6_timer_max_semantics sampleFighter
    ({sampleFighter with state.imms := fun _ => 3 / 2}) DKind.physical 1
  have h2 := C6_timer_max_semantics sampleFighter
    ({sampleFighter with state.freeze := 3 / 2}) DKind.physical 1
  constructor
  · exact h.2.2.2.1 (by norm_num)
  · rw [h2.2.2.2.2.1]
    norm_num [orDefault]

/-- Counterexample to C6 as stated: a TimeFreeze effect with duration 0
applied to a fighter whose freeze timer is 0.5 sets the timer to 1 (the
`duration || 1` fallback), not to `max(0.5, 0) = 0.5`. -/
theorem C6_timer_max_semantics_cex :
    (applyEffects [Effect.timeFreeze 0] sampleFighter
        ({sampleFighter with state.freeze := 1 / 2})).state.freeze = 1 := by
  rw [applyEffects_timeFreeze]
  norm_num [orDefault]

/-! ## C8 — knockback adds per-axis sign times half the force -/

theorem applyEffects_knockback (c t : Fighter) (force : ℚ) :
    applyEffects [Effect.knockback force] c t
      = {t with state.vel :=
          (⟨t.state.vel.x + sgn (t.state.pos.x - c.state.pos.x) * orDefault force 80 / 2,
            t.state.vel.y + sgn (t.state.pos.y - c.state.pos.y) * orDefault force 80 / 2⟩ : Vec)} := by
  simp [applyEffects, applyEffect]

/-- C8: a Knockback effect adds `sign(target − caster)` per axis times
`(force || 80)/2` to the target's velocity — per-axis sign, not a normalised
vector, additively stacking with the existing velocity and touching neither
position nor hp. For every nonzero force this is the claimed `force/2`; a
zero force falls back to the factory default 80 (see the counterexample). -/
theorem C8_knockback (c t : Fighter) (force : ℚ) :
    (applyEffects [Effect.knockback force] c t).state.vel.x
        = t.state.vel.x + sgn (t.state.pos.x - c.state.pos.x) * orDefault force 80 / 2
    ∧ (applyEffects [Effect.knockback force] c t).state.vel.y
        = t.state.vel.y + sgn (t.state.pos.y - c.state.pos.y) * orDefault force 80 / 2
    ∧ (applyEffects [Effect.knockback force] c t).state.pos = t.state.pos
    ∧ (applyEffects [Effect.knockback force] c t).state.hp = t.state.hp
    ∧ (force ≠ 0 →
        (applyEffects [Effect.knockback force] c t).state.vel.x
            = t.state.vel.x + sgn (t.state.pos.x - c.state.pos.x) * force / 2
        ∧ (applyEffects [Effect.knockback force] c t).state.vel.y
            = t.state.vel.y + sgn (t.state.pos.y - c.state.pos.y) * force / 2) := by
  simp only [applyEffects_knockback]
  refine ⟨trivial, trivial, trivial, trivial, fun hf => ?_⟩
  simp [orDefault, hf]

/-! ## C3 — cast selection -/

theorem orDefault_of_ne_zero {x : ℚ} (d : ℚ) (h : x ≠ 0) : orDefault x d = x := if_neg h

theorem sq_le_sq_iff_of_nonneg {d M : ℚ} (hd : 0 ≤ d) (hM : 0 ≤ M) :
    d ^ 2 ≤ M ^ 2 ↔ d ≤ M := by
  constructor
  · intro h
    nlinarith
  · intro h
    nlinarith

/-- The eligibility test of the cast scan, phrased over the distance itself:
cooldown at most 0 and distance within `max(20, range)`. -/
def castEligible (cd : String → ℚ) (d : ℚ) (a : Ability) : Bool :=
  decide (cd a.name ≤ 0) && decide (d ≤ max 20 a.range)

/-- C3: with `d ≥ 0` the distance to the opponent and validated abilities
(positive cooldowns), the cast scan selects exactly the first ability of the
declared order whose cooldown timer is ≤ 0 and whose range satisfies
`d ≤ max(20, range)`; on a cast the ability's cooldown timer is set to
`max(0.1, baseCooldown / max(0.1, attackSpeed))` — amended from the claim's
`max(0.1, baseCooldown / attackSpeed)` by the engine's clamp of the attack
speed at 0.1, see the counterexample — no other cooldown timer changes, and
without a cast no timer changes. The scan returns at most one ability, so a
fighter casts at most one ability per tick. -/
theorem C3_cast_selection (d attackSpeed : ℚ) (abilities : List Ability) (cd : String → ℚ)
    (hd : 0 ≤ d) (hcool : ∀ a ∈ abilities, 0 < a.cooldown) :
    (castScan (d ^ 2) attackSpeed abilities cd).2 = abilities.find? (castEligible cd d)
    ∧ (∀ a, (castScan (d ^ 2) attackSpeed abilities cd).2 = some a →
        (castScan (d ^ 2) attackSpeed abilities cd).1 a.name
            = max (1 / 10) (a.cooldown / max (1 / 10) attackSpeed)
        ∧ ∀ n, n ≠ a.name → (castScan (d ^ 2) attackSpeed abilities cd).1 n = cd n)
    ∧ ((castScan (d ^ 2) attackSpeed abilities cd).2 = none →
        (castScan (d ^ 2) attackSpeed abilities cd).1 = cd) := by
  induction abilities with
  | nil => simp [castScan]
  | cons a rest ih =>
    have hM : (0 : ℚ) ≤ max 20 a.range := le_trans (by norm_num) (le_max_left _ _)
    have hIH := ih (fun b hb => hcool b (List.mem_cons_of_mem a hb))
    by_cases hcd : 0 < cd a.name
    · have hel : ¬ castEligible cd d a = true := by
        simp [castEligible, not_le.mpr hcd]
      simp only [castScan, if_pos hcd, List.find?_cons_of_neg _ hel]
      exact hIH
    · have hcd0 : cd a.name ≤ 0 := not_lt.mp hcd
      by_cases hrange : d ^ 2 ≤ (max 20 (orDefault a.range 0)) ^ 2
      · have hdM : d ≤ max 20 a.range := by
          rw [orDefault_zero] at hrange
          exact (sq_le_sq_iff_of_nonneg hd hM).mp hrange
        have hel : castEligible cd d a = true := by
          simp [castEligible, hcd0, hdM]
        simp only [castScan, if_neg hcd, if_pos hrange, List.find?_cons_of_pos _ hel]
        refine ⟨trivial, ?_, by simp⟩
        intro b hb
        obtain rfl : a = b := by simpa using hb
        constructor
        · rw [Function.update_same,
            orDefault_of_ne_zero 1 (ne_of_gt (hcool a (List.mem_cons_self a rest)))]
        · intro n hn
          exact Function.update_noteq hn _ _
      · have hdM : ¬ d ≤ max 20 a.range := by
          intro hle
          exact hrange (by rw [orDefault_zero]; exact (sq_le_sq_iff_of_nonneg hd hM).mpr hle)
        have hel : ¬ castEligible cd d a = true := by
          simp [castEligible, hdM]
        simp only [castScan, if_neg hcd, if_neg hrange, List.find?_cons_of_neg _ hel]
        exact hIH

/-- A concrete melee ability for witnesses: `Slash` with cooldown 1 and
range 20. -/
def slashA : Ability := ⟨"Slash", "physical", 1, 20, []⟩

/-- Witness for C3 at a concrete input: at distance 15 with attack speed 1,
the scan over `[slashA]` casts `Slash` and its cooldown facts hold. -/
theorem C3_cast_selection_witness :
    (castScan ((15 : ℚ) ^ 2) 1 [slashA] (fun _ => 0)).2
        = [slashA].find? (castEligible (fun _ => 0) 15)
    ∧ (∀ a, (castScan ((15 : ℚ) ^ 2) 1 [slashA] (fun _ => 0)).2 = some a →
        (castScan ((15 : ℚ) ^ 2) 1 [slashA] (fun _ => 0)).1 a.name
            = max (1 / 10) (a.cooldown / max (1 / 10) 1)
        ∧ ∀ n, n ≠ a.name → (castScan ((15 : ℚ) ^ 2) 1 [slashA] (fun _ => 0)).1 n = (fun _ => (0 : ℚ)) n)
    ∧ ((castScan ((15 : ℚ) ^ 2) 1 [slashA] (fun _ => 0)).2 = none →
        (castScan ((15 : ℚ) ^ 2) 1 [slashA] (fun _ => 0)).1 = fun _ => 0) :=
  C3_cast_selection 15 1 [slashA] (fun _ => 0) (by norm_num)
    (by intro a ha; simp only [List.mem_singleton] at ha; subst ha; norm_num [slashA])

/-- Counterexample to C3 as stated: with attack speed 1/20 (< 0.1) and base
cooldown 1, the engine sets the cast cooldown to
`max(0.1, 1 / max(0.1, 1/20)) = 10`, while the claim's formula
`max(0.1, baseCooldown / attackSpeed)` gives 20. -/
theorem C3_cast_selection_cex :
    (castScan 0 (1 / 20) [slashA] (fun _ => 0)).1 "Slash" = 10
    ∧ max ((1 : ℚ) / 10) (1 / (1 / 20)) = 20 := by
  constructor
  · norm_num [castScan, slashA, orDefault]
  · norm_num

/-! ## C2 — frame-rate-independent DoT batching -/

theorem runPulses_of_lt_one (immune : Bool) (dps dur hp : ℚ) {t : ℚ} (h : t < 1) :
    runPulses immune dps t dur hp = ⟨t, dur, hp, 0⟩ := by
  have hf : Int.toNat ⌊t⌋ = 0 := by
    have : ⌊t⌋ < 1 := Int.floor_lt.mpr (by exact_mod_cast h)
    omega
  rw [runPulses, hf, pulseLoop]

theorem runPulses_of_one_le (dps dur hp : ℚ) {t : ℚ} (h1 : 1 ≤ t) (h2 : t < 2) :
    runPulses false dps t dur hp = ⟨t - 1, dur - 1, hp - dps, 1⟩ := by
  have hf : ⌊t⌋ = 1 := by
    rw [Int.floor_eq_iff]
    constructor
    · exact_mod_cast h1
    · push_cast
      linarith
  rw [runPulses, hf]
  show pulseLoop false dps 1 t dur hp = _
  rw [pulseLoop, if_pos h1, pulseLoop]
  simp

theorem isImmune_of_nonpos {st : FState} (h : ∀ k2, st.imms k2 ≤ 0) (k : DKind) :
    isImmune st k = false := by
  have hp := not_lt.mpr (h .physical)
  have hm := not_lt.mpr (h .magical)
  have hb := not_lt.mpr (h .both)
  cases k <;> simp [isImmune, hp, hm, hb]

theorem decayImms_nonpos {imms : DKind → ℚ} (h : ∀ k, imms k ≤ 0) (dt : ℚ) :
    ∀ k, decayImms dt imms k ≤ 0 := by
  intro k
  unfold decayImms
  split
  · exact absurd (by assumption) (not_lt.mpr (h k))
  · exact h k

/-- The inductive invariant of the DoT batching argument, for a fighter
carrying the single 3 dps / 3 s record of damage kind `k`, started with hp
`hp0`, after total elapsed time `cum` and `n` fired pulses. -/
def dotInv (k : DKind) (hp0 cum : ℚ) (f : Fighter) (n : ℕ) : Prop :=
  (∀ k2, f.state.imms k2 ≤ 0)
  ∧ f.state.hp = hp0 - 3 * n
  ∧ n ≤ 3
  ∧ (n < 3 → f.state.dots = [⟨3, 3 - (n : ℚ), cum - (n : ℚ), k⟩]
      ∧ (n : ℚ) ≤ cum ∧ cum - (n : ℚ) < 1)
  ∧ (n = 3 → 3 ≤ cum
      ∧ (f.state.dots = [] ∨ (f.state.dots = [⟨3, 0, cum - 3, k⟩] ∧ cum - 3 < 1)))

theorem statusStep_dotInv {k : DKind} {hp0 cum : ℚ} {f : Fighter} {n : ℕ}
    (hInv : dotInv k hp0 cum f n) {dt : ℚ} (hdt0 : 0 < dt) (hdt1 : dt ≤ 1) :
    dotInv k hp0 (cum + dt) (statusStep dt f).1 (n + (statusStep dt f).2) := by
  obtain ⟨himm, hhp, hn3, hlt, heq⟩ := hInv
  have himm2 := decayImms_nonpos himm dt
  have himmF : isImmune f.state k = false := isImmune_of_nonpos himm k
  by_cases hn : n < 3
  · obtain ⟨hdots, hncum, hcum1⟩ := hlt hn
    have hnq : (n : ℚ) < 3 := by exact_mod_cast hn
    have hdur : ¬ ((3 : ℚ) - (n : ℚ) ≤ 0) := by linarith
    by_cases hpulse : cum - (n : ℚ) + dt < 1
    · -- the sub-second accumulator stays below 1: no pulse this tick
      have ht' : cum - (n : ℚ) + dt = cum + dt - (n : ℚ) := by ring
      have hrp : runPulses false 3 (cum + dt - (n : ℚ)) (3 - (n : ℚ)) f.state.hp
          = ⟨cum + dt - (n : ℚ), 3 - (n : ℚ), f.state.hp, 0⟩ := by
        rw [← ht']
        exact runPulses_of_lt_one _ _ _ _ hpulse
      have hstep : statusStep dt f
          = ({f with state := {f.state with
              dots := [⟨3, 3 - (n : ℚ), cum + dt - (n : ℚ), k⟩]
              hp := f.state.hp
              imms := decayImms dt f.state.imms
              cd := decayCds dt f.abilities f.state.cd}}, 0) := by
        rw [statusStep]
        simp [hdots, tickDotsAux, hdur, himmF, ht', hrp]
      rw [hstep]
      refine ⟨himm2, by simpa using hhp, by simpa using hn3, fun _ => ⟨rfl, ?_, ?_⟩,
        fun h3 => absurd (by simpa using h3) (Nat.ne_of_lt hn)⟩
      · simpa using by linarith
      · simpa using by linarith
    · -- the accumulator crosses 1: exactly one pulse fires
      have h1 : 1 ≤ cum - (n : ℚ) + dt := not_lt.mp hpulse
      have h2 : cum - (n : ℚ) + dt < 2 := by linarith
      have hc1 : ((n + 1 : ℕ) : ℚ) = (n : ℚ) + 1 := by push_cast; ring
      have hd1 : (3 : ℚ) - (n : ℚ) - 1 = 3 - ((n + 1 : ℕ) : ℚ) := by rw [hc1]; ring
      have hd2 : cum - (n : ℚ) + dt - 1 = cum + dt - ((n + 1 : ℕ) : ℚ) := by rw [hc1]; ring
      have hrp : runPulses false 3 (cum - (n : ℚ) + dt) (3 - (n : ℚ)) f.state.hp
          = ⟨cum + dt - ((n + 1 : ℕ) : ℚ), 3 - ((n + 1 : ℕ) : ℚ), f.state.hp - 3, 1⟩ := by
        rw [runPulses_of_one_le _ _ _ h1 h2, hd1, hd2]
      have hstep : statusStep dt f
          = ({f with state := {f.state with
              dots := [⟨3, 3 - ((n + 1 : ℕ) : ℚ), cum + dt - ((n + 1 : ℕ) : ℚ), k⟩]
              hp := f.state.hp - 3
              imms := decayImms dt f.state.imms
              cd := decayCds dt f.abilities f.state.cd}}, 1) := by
        rw [statusStep]
        simp [hdots, tickDotsAux, hdur, himmF, hrp]
      rw [hstep]
      refine ⟨himm2, ?_, by omega, fun hlt1 => ⟨rfl, ?_, ?_⟩, fun heq1 => ?_⟩
      · show f.state.hp - 3 = hp0 - 3 * ((n + 1 : ℕ) : ℚ)
        rw [hhp, hc1]
        ring
      · show ((n + 1 : ℕ) : ℚ) ≤ cum + dt
        rw [hc1]
        linarith
      · show cum + dt - ((n + 1 : ℕ) : ℚ) < 1
        rw [hc1]
        linarith
      · have h3q : ((n + 1 : ℕ) : ℚ) = 3 := by exact_mod_cast congrArg (Nat.cast : ℕ → ℚ) heq1
        refine ⟨by rw [← h3q, hc1]; linarith, Or.inr ⟨?_, by rw [← h3q, hc1]; linarith⟩⟩
        show [(⟨3, 3 - ((n + 1 : ℕ) : ℚ), cum + dt - ((n + 1 : ℕ) : ℚ), k⟩ : DotRec)]
            = [⟨3, 0, cum + dt - 3, k⟩]
        rw [h3q]
        norm_num
  · have hn' : n = 3 := le_antisymm hn3 (not_lt.mp hn)
    subst hn'
    obtain ⟨hcum3, hdots⟩ := heq rfl
    have hstep : statusStep dt f
        = ({f with state := {f.state with
            dots := []
            hp := f.state.hp
            imms := decayImms dt f.state.imms
            cd := decayCds dt f.abilities f.state.cd}}, 0) := by
      rcases hdots with hnone | ⟨hone, ht1⟩
      · rw [statusStep]
        simp [hnone, tickDotsAux]
      · rw [statusStep]
        simp [hone, tickDotsAux]
    have hst1 : (statusStep dt f).1 = {f with state := {f.state with
        dots := []
        hp := f.state.hp
        imms := decayImms dt f.state.imms
        cd := decayCds dt f.abilities f.state.cd}} := by rw [hstep]
    have hst2 : (statusStep dt f).2 = 0 := by rw [hstep]
    rw [hst1, hst2, Nat.add_zero]
    exact ⟨himm2, by simpa using hhp, by omega, fun h => absurd h (by omega),
      fun _ => ⟨by linarith, Or.inl rfl⟩⟩

theorem runStatus_dotInv {k : DKind} {hp0 : ℚ} (dts : List ℚ)
    (hsteps : ∀ d ∈ dts, 0 < d ∧ d ≤ 1) :
    ∀ (cum : ℚ) (f : Fighter) (n : ℕ), dotInv k hp0 cum f n →
      dotInv k hp0 (cum + dts.sum)
        (dts.foldl (fun p dt => let r := statusStep dt p.1; (r.1, p.2 + r.2)) (f, n)).1
        (dts.foldl (fun p dt => let r := statusStep dt p.1; (r.1, p.2 + r.2)) (f, n)).2 := by
  induction dts with
  | nil =>
    intro cum f n h
    simpa using h
  | cons d rest ih =>
    intro cum f n h
    have hd := hsteps d (List.mem_cons_self d rest)
    have hstep := statusStep_dotInv h hd.1 hd.2
    have hres := ih (fun x hx => hsteps x (List.mem_cons_of_mem d hx)) (cum + d)
      (statusStep d f).1 (n + (statusStep d f).2) hstep
    simpa [List.sum_cons, add_assoc] using hres

/-- C2 (amended): a fighter carrying a single DoT record with dps 3,
remaining duration 3 s and accumulator 0, never immune to its damage kind,
loses exactly 9 hp in exactly 3 discrete pulses over any finite sequence of
positive dt steps, each at most 1 second, whose sum is ≥ 3 s — independent of
how the steps are chosen. (The claim's arbitrary positive steps are amended
to steps ≤ 1 s: the DoT while-loop does not re-check the remaining duration,
so a single step longer than the remaining duration fires extra pulses, see
the counterexample. The engine's frame clamp `dt ≤ 0.033` keeps real ticks
inside the amended range.) -/
theorem C2_dot_batching (f : Fighter) (k : DKind) (dts : List ℚ)
    (hdots : f.state.dots = [⟨3, 3, 0, k⟩])
    (himm : ∀ k2, f.state.imms k2 ≤ 0)
    (hsteps : ∀ d ∈ dts, 0 < d ∧ d ≤ 1)
    (hsum : 3 ≤ dts.sum) :
    (runStatus dts f).1.state.hp = f.state.hp - 9 ∧ (runStatus dts f).2 = 3 := by
  have h0 : dotInv k f.state.hp 0 f 0 := by
    refine ⟨himm, by simp, by omega, fun _ => ⟨by simpa using hdots, by norm_num, by norm_num⟩,
      fun h => by omega⟩
  have hfin := runStatus_dotInv dts hsteps 0 f 0 h0
  rw [zero_add] at hfin
  obtain ⟨-, hhp, hn3, hlt, -⟩ := hfin
  have hrs : runStatus dts f
      = dts.foldl (fun p dt => let r := statusStep dt p.1; (r.1, p.2 + r.2)) (f, 0) := rfl
  rw [hrs]
  have hn : (dts.foldl (fun p dt => let r := statusStep dt p.1; (r.1, p.2 + r.2)) (f, 0)).2
      = 3 := by
    by_contra hne
    have hlt3 := lt_of_le_of_ne hn3 hne
    obtain ⟨-, -, hc1⟩ := hlt hlt3
    have hle2 : ((dts.foldl (fun p dt => let r := statusStep dt p.1; (r.1, p.2 + r.2)) (f, 0)).2 : ℚ)
        ≤ 2 := by exact_mod_cast Nat.lt_succ_iff.mp hlt3
    linarith
  rw [hn] at hhp
  refine ⟨?_, hn⟩
  rw [hhp]
  norm_num

/-- The concrete DoT carrier of the C2 witness and counterexample. -/
def dotFighter : Fighter :=
  ⟨"A", sampleStats, {sampleState with dots := [⟨3, 3, 0, .magical⟩]}, []⟩

/-- Witness for C2 at a concrete input: three 1-second steps remove exactly
9 hp in exactly 3 pulses. -/
theorem C2_dot_batching_witness :
    (runStatus [1, 1, 1] dotFighter).1.state.hp = dotFighter.state.hp - 9
    ∧ (runStatus [1, 1, 1] dotFighter).2 = 3 :=
  C2_dot_batching dotFighter .magical [1, 1, 1]
    (by simp [dotFighter, sampleState])
    (by intro k2; simp [dotFighter, sampleState])
    (by intro d hd
        simp only [List.mem_cons, List.not_mem_nil, or_false] at hd
        rcases hd with rfl | rfl | rfl <;> norm_num)
    (by norm_num)

/-- Counterexample to C2 as stated: a single step of dt = 4 s (sum ≥ 3 s) on
the same fighter fires 4 pulses and removes 12 hp, not 3 pulses and 9 hp —
the while-loop never re-checks the remaining duration inside one tick. -/
theorem C2_dot_batching_cex :
    (runStatus [4] dotFighter).1.state.hp = dotFighter.state.hp - 12
    ∧ (runStatus [4] dotFighter).2 = 4 := by
  have hfuel : Int.toNat ⌊(0 : ℚ) + 4⌋ = 4 := by
    norm_num
    rfl
  constructor <;>
    norm_num [runStatus, statusStep, dotFighter, sampleState, zeroVec, tickDotsAux,
      runPulses, hfuel, isImmune, pulseLoop]

/-! ## C7 — atomic ability compilation -/

theorem validateAll_eq_none_of_mem_none {rs : List AbilitySpec}
    (h : ∃ r ∈ rs, Ability.make r = none) : validateAll rs = none := by
  induction rs with
  | nil => simp at h
  | cons r rest ih =>
    obtain ⟨s, hs, hnone⟩ := h
    rcases List.mem_cons.mp hs with rfl | hmem
    · simp [validateAll, hnone]
    · cases hr : Ability.make r <;> simp [validateAll, hr, ih ⟨s, hmem, hnone⟩]

/-- C7: ability compilation yields no ability list on any failure —
structural (the text cannot be compiled into an invocable unit) or behavioral
(the invocation throws, returns a non-array, or any produced record fails
validation) — and the caller then retains its previously loaded set
unchanged; in particular a batch containing one invalid record is rejected
as a whole, with no partial adoption, while a successful compile is adopted
in full. -/
theorem C7_atomic_compile (prev : List Ability) (o : ScriptOutcome) (rs : List AbilitySpec) :
    compileAbilities .syntaxError = none
    ∧ compileAbilities .throws = none
    ∧ compileAbilities .returnsNonArray = none
    ∧ ((∃ r ∈ rs, Ability.make r = none) → compileAbilities (.returns rs) = none
        ∧ adoptCompiled prev (.returns rs) = prev)
    ∧ (compileAbilities o = none → adoptCompiled prev o = prev)
    ∧ (∀ l, compileAbilities o = some l → adoptCompiled prev o = l) := by
  refine ⟨rfl, rfl, rfl, fun h => ?_, fun h => ?_, fun l h => ?_⟩
  · have hnone := validateAll_eq_none_of_mem_none h
    exact ⟨hnone, by simp [adoptCompiled, compileAbilities, hnone]⟩
  · simp [adoptCompiled, h]
  · simp [adoptCompiled, h]

/-! ## C4 — projectile collision resolution -/

theorem projColl_mem (ppos : Vec) (fpos : List Vec) (i : ℕ) :
    i ∈ projColl ppos fpos ↔ ∃ v, fpos[i]? = some v ∧ dist2 ppos v < 18 ^ 2 := by
  simp only [projColl, List.mem_map, List.mem_filter, Prod.exists]
  constructor
  · rintro ⟨j, v, ⟨hmem, hq⟩, rfl⟩
    exact ⟨v, List.mk_mem_enum_iff_getElem?.mp hmem, of_decide_eq_true hq⟩
  · rintro ⟨v, hv, hd⟩
    exact ⟨i, v, ⟨List.mk_mem_enum_iff_getElem?.mpr hv, decide_eq_true hd⟩, rfl⟩

theorem projColl_nodup (ppos : Vec) (fpos : List Vec) : (projColl ppos fpos).Nodup :=
  ((List.filter_sublist _).map Prod.fst).nodup (List.nodup_enum_map_fst fpos)

theorem stepProjectile_live (dt : ℚ) (fpos : List Vec) (p : Projectile)
    (halive : p.alive = true) (httl : 0 < p.ttl - dt) :
    stepProjectile dt fpos p =
      ({p with pos := (⟨p.pos.x + p.vel.x * dt, p.pos.y + p.vel.y * dt⟩ : Vec)
               ttl := p.ttl - dt
               alive := (projColl (⟨p.pos.x + p.vel.x * dt, p.pos.y + p.vel.y * dt⟩ : Vec) fpos).isEmpty},
       projColl (⟨p.pos.x + p.vel.x * dt, p.pos.y + p.vel.y * dt⟩ : Vec) fpos) := by
  rw [stepProjectile]
  simp [halive, not_le.mpr httl]

/-- C4 (amended): during a tick's projectile pass, a live projectile whose
decremented ttl is still positive fires `onHit` exactly once on every fighter
within the fixed 18px radius of its updated position — the source's collision
loop has no break, so this can be both fighters, not at most one (see the
counterexample) — it is marked dead as soon as it hit anyone, and the cleanup
at the end of the pass removes every dead projectile. -/
theorem C4_projectile_hits (dt : ℚ) (fpos : List Vec) (p : Projectile)
    (halive : p.alive = true) (httl : 0 < p.ttl - dt) :
    (stepProjectile dt fpos p).2.Nodup
    ∧ (∀ i ∈ (stepProjectile dt fpos p).2,
        ∃ v, fpos[i]? = some v ∧ dist2 (stepProjectile dt fpos p).1.pos v < 18 ^ 2)
    ∧ (∀ i v, fpos[i]? = some v → dist2 (stepProjectile dt fpos p).1.pos v < 18 ^ 2 →
        i ∈ (stepProjectile dt fpos p).2)
    ∧ ((stepProjectile dt fpos p).2 ≠ [] → (stepProjectile dt fpos p).1.alive = false)
    ∧ ((stepProjectile dt fpos p).1.alive = false →
        cleanupProjectiles [(stepProjectile dt fpos p).1] = [])
    ∧ (∀ ps : List Projectile, ∀ q ∈ cleanupProjectiles ps, q.alive = true) := by
  rw [stepProjectile_live dt fpos p halive httl]
  refine ⟨projColl_nodup _ _, ?_, ?_, ?_, ?_, ?_⟩
  · intro i hi
    exact (projColl_mem _ _ _).mp hi
  · intro i v hv hd
    exact (projColl_mem _ _ _).mpr ⟨v, hv, hd⟩
  · intro hne
    simpa [List.isEmpty_iff] using hne
  · intro hdead
    have hne : projColl (⟨p.pos.x + p.vel.x * dt, p.pos.y + p.vel.y * dt⟩ : Vec) fpos ≠ [] := by
      simpa [List.isEmpty_iff] using hdead
    simp [cleanupProjectiles, hdead, hne]
  · intro ps q hq
    exact (List.mem_filter.mp hq).2

/-- The concrete projectile of the C4 counterexample and witness: at
(100,100), stationary, one second of ttl. -/
def cexProj : Projectile :=
  { pos := ⟨100, 100⟩, vel := zeroVec, ttl := 1, alive := true
    effects := [], casterIsA := true }

/-- Witness for C4 at a concrete input: fighter A at (110,100) — inside the
18px radius — and fighter B far away at (400,100); the projectile hits
exactly fighter 0 and dies. -/
theorem C4_projectile_hits_witness :
    (stepProjectile (1 / 100) [⟨110, 100⟩, ⟨400, 100⟩] cexProj).2.Nodup
    ∧ (∀ i ∈ (stepProjectile (1 / 100) [⟨110, 100⟩, ⟨400, 100⟩] cexProj).2,
        ∃ v, [(⟨110, 100⟩ : Vec), ⟨400, 100⟩][i]? = some v
          ∧ dist2 (stepProjectile (1 / 100) [⟨110, 100⟩, ⟨400, 100⟩] cexProj).1.pos v < 18 ^ 2)
    ∧ (∀ i v, [(⟨110, 100⟩ : Vec), ⟨400, 100⟩][i]? = some v →
        dist2 (stepProjectile (1 / 100) [⟨110, 100⟩, ⟨400, 100⟩] cexProj).1.pos v < 18 ^ 2 →
        i ∈ (stepProjectile (1 / 100) [⟨110, 100⟩, ⟨400, 100⟩] cexProj).2)
    ∧ ((stepProjectile (1 / 100) [⟨110, 100⟩, ⟨400, 100⟩] cexProj).2 ≠ [] →
        (stepProjectile (1 / 100) [⟨110, 100⟩, ⟨400, 100⟩] cexProj).1.alive = false)
    ∧ ((stepProjectile (1 / 100) [⟨110, 100⟩, ⟨400, 100⟩] cexProj).1.alive = false →
        cleanupProjectiles [(stepProjectile (1 / 100) [⟨110, 100⟩, ⟨400, 100⟩] cexProj).1] = [])
    ∧ (∀ ps : List Projectile, ∀ q ∈ cleanupProjectiles ps, q.alive = true) :=
  C4_projectile_hits (1 / 100) [⟨110, 100⟩, ⟨400, 100⟩] cexProj rfl (by norm_num [cexProj])

/-- Counterexample to C4 as stated: a projectile lying within 18px of both
fighters fires `onHit` on both of them in the same pass — the hit-index list
is `[0, 1]`, not at most one fighter. -/
theorem C4_projectile_hits_cex :
    (stepProjectile (1 / 100) [⟨110, 100⟩, ⟨90, 100⟩] cexProj).2 = [0, 1] := by
  rw [stepProjectile_live _ _ _ rfl (by norm_num [cexProj])]
  norm_num [cexProj, projColl, zeroVec, List.enum, List.enumFrom, dist2]

/-- Counterexample to C8 as stated: a Knockback effect with force 0 against a
target strictly to the caster's right adds 80/2 = 40 to the x-velocity, not
0/2 = 0 — the zero force falls back to the default 80. -/
theorem C8_knockback_cex :
    (applyEffects [Effect.knockback 0] sampleFighter
        ({sampleFighter with state.pos := ⟨1, 0⟩})).state.vel.x = 40 := by
  rw [applyEffects_knockback]
  norm_num [sampleFighter, sampleState, zeroVec, sgn, orDefault]

/-! ## C5 — hp floor and no auto-restoration -/

/-- An effect that cannot raise hp when resolved: a Damage effect with a
nonnegative amount (every other effect kind leaves hp unchanged). -/
def nonHealing : Effect → Prop
  | .damage a _ => 0 ≤ a
  | _ => True

theorem applyEffect_base (c t : Fighter) (e : Effect) : (applyEffect c t e).base = t.base := by
  cases e with
  | damage a k =>
    by_cases himm : isImmune t.state k = true <;> simp [applyEffect, himm]
  | dot dps dur k =>
    by_cases himm : isImmune t.state k = true <;> simp [applyEffect, himm]
  | immunity k d => rfl
  | timeFreeze d => rfl
  | knockback fo => rfl

theorem applyEffect_abilities (c t : Fighter) (e : Effect) :
    (applyEffect c t e).abilities = t.abilities := by
  cases e with
  | damage a k =>
    by_cases himm : isImmune t.state k = true <;> simp [applyEffect, himm]
  | dot dps dur k =>
    by_cases himm : isImmune t.state k = true <;> simp [applyEffect, himm]
  | immunity k d => rfl
  | timeFreeze d => rfl
  | knockback fo => rfl

theorem applyEffect_hp_le (c t : Fighter) (e : Effect) (he : nonHealing e)
    (hrp : 0 ≤ t.base.physicalResistance) (hrm : 0 ≤ t.base.magicalResistance) :
    (applyEffect c t e).state.hp ≤ t.state.hp := by
  cases e with
  | damage a k =>
    have ha : 0 ≤ a := he
    have h1 : (0 : ℚ) < 100 + t.base.physicalResistance := by linarith
    have h2 : (0 : ℚ) < 100 + t.base.magicalResistance := by linarith
    by_cases himm : isImmune t.state k = true
    · simp [applyEffect, himm]
    · cases k with
      | physical =>
        simp only [applyEffect, if_neg himm]
        show t.state.hp - orDefault a 0 * 100 / (100 + t.base.physicalResistance)
            ≤ t.state.hp
        rw [orDefault_zero]
        have : 0 ≤ a * 100 / (100 + t.base.physicalResistance) :=
          div_nonneg (by nlinarith) (le_of_lt h1)
        linarith
      | magical =>
        simp only [applyEffect, if_neg himm]
        show t.state.hp - orDefault a 0 * 100 / (100 + t.base.magicalResistance)
            ≤ t.state.hp
        rw [orDefault_zero]
        have : 0 ≤ a * 100 / (100 + t.base.magicalResistance) :=
          div_nonneg (by nlinarith) (le_of_lt h2)
        linarith
      | both =>
        simp only [applyEffect, if_neg himm]
        show t.state.hp - (orDefault a 0 / 2 * 100 / (100 + t.base.physicalResistance)
            + orDefault a 0 / 2 * 100 / (100 + t.base.magicalResistance)) ≤ t.state.hp
        rw [orDefault_zero]
        have q1 : 0 ≤ a / 2 * 100 / (100 + t.base.physicalResistance) :=
          div_nonneg (by nlinarith) (le_of_lt h1)
        have q2 : 0 ≤ a / 2 * 100 / (100 + t.base.magicalResistance) :=
          div_nonneg (by nlinarith) (le_of_lt h2)
        linarith
  | dot dps dur k =>
    by_cases himm : isImmune t.state k = true
    · simp [applyEffect, himm]
    · simp [applyEffect, himm]
  | immunity k d => exact le_refl _
  | timeFreeze d => exact le_refl _
  | knockback fo => exact le_refl _

theorem applyEffects_base (l : List Effect) (c : Fighter) :
    ∀ t : Fighter, (applyEffects l c t).base = t.base := by
  induction l with
  | nil => intro t; rfl
  | cons e rest ih =>
    intro t
    show (applyEffects rest c (applyEffect c t e)).base = t.base
    rw [ih, applyEffect_base]

theorem applyEffects_abilities (l : List Effect) (c : Fighter) :
    ∀ t : Fighter, (applyEffects l c t).abilities = t.abilities := by
  induction l with
  | nil => intro t; rfl
  | cons e rest ih =>
    intro t
    show (applyEffects rest c (applyEffect c t e)).abilities = t.abilities
    rw [ih, applyEffect_abilities]

theorem applyEffects_hp_le (l : List Effect) (c : Fighter) :
    ∀ t : Fighter, (∀ e ∈ l, nonHealing e) →
      0 ≤ t.base.physicalResistance → 0 ≤ t.base.magicalResistance →
      (applyEffects l c t).state.hp ≤ t.state.hp := by
  induction l with
  | nil => intro t _ _ _; exact le_refl _
  | cons e rest ih =>
    intro t hl hrp hrm
    show (applyEffects rest c (applyEffect c t e)).state.hp ≤ t.state.hp
    have h1 := applyEffect_hp_le c t e (hl e (List.mem_cons_self e rest)) hrp hrm
    have h2 := ih (applyEffect c t e) (fun x hx => hl x (List.mem_cons_of_mem e hx))
      (by rw [applyEffect_base]; exact hrp) (by rw [applyEffect_base]; exact hrm)
    linarith

/-- The footprint of one engine pass on a fighter: hp not increased, base
stats and the ability list untouched. -/
def hpEvol (f g : Fighter) : Prop :=
  g.state.hp ≤ f.state.hp ∧ g.base = f.base ∧ g.abilities = f.abilities

theorem hpEvol_refl (f : Fighter) : hpEvol f f := ⟨le_refl _, rfl, rfl⟩

theorem hpEvol_trans {f g h : Fighter} (h1 : hpEvol f g) (h2 : hpEvol g h) : hpEvol f h :=
  ⟨le_trans h2.1 h1.1, h2.2.1.trans h1.2.1, h2.2.2.trans h1.2.2⟩

theorem applyEffects_evol (l : List Effect) (c t : Fighter) (hl : ∀ e ∈ l, nonHealing e)
    (hrp : 0 ≤ t.base.physicalResistance) (hrm : 0 ≤ t.base.magicalResistance) :
    hpEvol t (applyEffects l c t) :=
  ⟨applyEffects_hp_le l c t hl hrp hrm, applyEffects_base l c t, applyEffects_abilities l c t⟩

theorem pulseLoop_hp_le (immune : Bool) (dps : ℚ) (hdps : 0 ≤ dps) :
    ∀ (fuel : ℕ) (t dur hp : ℚ), (pulseLoop immune dps fuel t dur hp).hp ≤ hp := by
  intro fuel
  induction fuel with
  | zero => intro t dur hp; exact le_refl _
  | succ fuel ih =>
    intro t dur hp
    show (pulseLoop immune dps (fuel + 1) t dur hp).hp ≤ hp
    rw [pulseLoop]
    split
    · refine le_trans (ih (t - 1) (dur - 1) _) ?_
      split
      · exact le_refl _
      · linarith
    · exact le_refl _

theorem tickDotsAux_hp_le (dt : ℚ) (immF : DKind → Bool) :
    ∀ (dots : List DotRec) (hp : ℚ), (∀ d ∈ dots, 0 ≤ d.dps) →
      (tickDotsAux dt immF dots hp).2.1 ≤ hp := by
  intro dots
  induction dots with
  | nil => intro hp _; exact le_refl _
  | cons d rest ih =>
    intro hp hd
    rw [tickDotsAux]
    split
    · exact ih hp (fun x hx => hd x (List.mem_cons_of_mem d hx))
    · have h1 : (runPulses (immF d.dtype) d.dps (d.t + dt) d.duration hp).hp ≤ hp :=
        pulseLoop_hp_le _ _ (hd d (List.mem_cons_self d rest)) _ _ _ _
      have h2 := ih (runPulses (immF d.dtype) d.dps (d.t + dt) d.duration hp).hp
        (fun x hx => hd x (List.mem_cons_of_mem d hx))
      exact le_trans h2 h1

theorem statusStep_evol (dt : ℚ) (f : Fighter) (hd : ∀ d ∈ f.state.dots, 0 ≤ d.dps) :
    hpEvol f (statusStep dt f).1 :=
  ⟨tickDotsAux_hp_le dt _ f.state.dots f.state.hp hd, rfl, rfl⟩

theorem castScan_mem (dsq attackSpeed : ℚ) :
    ∀ (l : List Ability) (cd : String → ℚ) (a : Ability),
      (castScan dsq attackSpeed l cd).2 = some a → a ∈ l := by
  intro l
  induction l with
  | nil =>
    intro cd a h
    simp [castScan] at h
  | cons b rest ih =>
    intro cd a h
    rw [castScan] at h
    split at h
    · exact List.mem_cons_of_mem b (ih cd a h)
    · split at h
      · simp at h
        subst h
        exact List.mem_cons_self _ _
      · exact List.mem_cons_of_mem b (ih cd a h)

theorem projApply_evol (p : Projectile) (he : ∀ e ∈ p.effects, nonHealing e) :
    ∀ (hits : List ℕ) (fA fB : Fighter),
      0 ≤ fA.base.physicalResistance → 0 ≤ fA.base.magicalResistance →
      0 ≤ fB.base.physicalResistance → 0 ≤ fB.base.magicalResistance →
      hpEvol fA (projApply p hits fA fB).1 ∧ hpEvol fB (projApply p hits fA fB).2 := by
  intro hits
  induction hits with
  | nil => intro fA fB _ _ _ _; exact ⟨hpEvol_refl _, hpEvol_refl _⟩
  | cons i rest ih =>
    intro fA fB hA1 hA2 hB1 hB2
    by_cases hi : i = 0
    · subst hi
      have heA := applyEffects_evol p.effects (if p.casterIsA then fA else fB) fA he hA1 hA2
      have hstep : projApply p (0 :: rest) fA fB
          = projApply p rest (applyEffects p.effects (if p.casterIsA then fA else fB) fA) fB :=
        rfl
      rw [hstep]
      have hrec := ih (applyEffects p.effects (if p.casterIsA then fA else fB) fA) fB
        (by rw [heA.2.1]; exact hA1) (by rw [heA.2.1]; exact hA2) hB1 hB2
      exact ⟨hpEvol_trans heA hrec.1, hrec.2⟩
    · have heB := applyEffects_evol p.effects (if p.casterIsA then fA else fB) fB he hB1 hB2
      have hstep : projApply p (i :: rest) fA fB
          = projApply p rest fA (applyEffects p.effects (if p.casterIsA then fA else fB) fB) := by
        show (rest.foldl _ (if i = 0 then _ else (fA, applyEffects p.effects _ fB))) = _
        rw [if_neg hi]
        rfl
      rw [hstep]
      have hrec := ih fA (applyEffects p.effects (if p.casterIsA then fA else fB) fB)
        hA1 hA2 (by rw [heB.2.1]; exact hB1) (by rw [heB.2.1]; exact hB2)
      exact ⟨hrec.1, hpEvol_trans heB hrec.2⟩

theorem stepProjectile_effects (dt : ℚ) (fpos : List Vec) (p : Projectile) :
    (stepProjectile dt fpos p).1.effects = p.effects := by
  rw [stepProjectile]
  dsimp only
  split
  · rfl
  · split
    · rfl
    · rfl

theorem projectilePhase_evol (dt : ℚ) :
    ∀ (ps : List Projectile) (fA fB : Fighter),
      (∀ p ∈ ps, ∀ e ∈ p.effects, nonHealing e) →
      0 ≤ fA.base.physicalResistance → 0 ≤ fA.base.magicalResistance →
      0 ≤ fB.base.physicalResistance → 0 ≤ fB.base.magicalResistance →
      hpEvol fA (projectilePhase dt ps fA fB).2.1
      ∧ hpEvol fB (projectilePhase dt ps fA fB).2.2 := by
  intro ps
  induction ps with
  | nil => intro fA fB _ _ _ _ _; exact ⟨hpEvol_refl _, hpEvol_refl _⟩
  | cons p rest ih =>
    intro fA fB hps hA1 hA2 hB1 hB2
    have heff : ∀ e ∈ (stepProjectile dt [fA.state.pos, fB.state.pos] p).1.effects,
        nonHealing e := by
      rw [stepProjectile_effects]
      exact hps p (List.mem_cons_self p rest)
    have h1 := projApply_evol (stepProjectile dt [fA.state.pos, fB.state.pos] p).1 heff
      (stepProjectile dt [fA.state.pos, fB.state.pos] p).2 fA fB hA1 hA2 hB1 hB2
    have h2 := ih (projApply (stepProjectile dt [fA.state.pos, fB.state.pos] p).1
        (stepProjectile dt [fA.state.pos, fB.state.pos] p).2 fA fB).1
      (projApply (stepProjectile dt [fA.state.pos, fB.state.pos] p).1
        (stepProjectile dt [fA.state.pos, fB.state.pos] p).2 fA fB).2
      (fun q hq => hps q (List.mem_cons_of_mem p hq))
      (by rw [h1.1.2.1]; exact hA1) (by rw [h1.1.2.1]; exact hA2)
      (by rw [h1.2.2.1]; exact hB1) (by rw [h1.2.2.1]; exact hB2)
    exact ⟨hpEvol_trans h1.1 h2.1, hpEvol_trans h1.2 h2.2⟩

theorem aiStep_evol (dt pow02 : ℚ) (dir : Vec) (b : Bounds) (me op : Fighter)
    (hab : ∀ a ∈ me.abilities, ∀ e ∈ a.effects, nonHealing e)
    (hop1 : 0 ≤ op.base.physicalResistance) (hop2 : 0 ≤ op.base.magicalResistance) :
    hpEvol me (aiStep dt pow02 dir b me op).1 ∧ hpEvol op (aiStep dt pow02 dir b me op).2 := by
  rw [aiStep]
  split
  · exact ⟨⟨le_refl _, rfl, rfl⟩, hpEvol_refl _⟩
  · dsimp only
    split
    · exact ⟨⟨le_refl _, rfl, rfl⟩, hpEvol_refl _⟩
    · next a heq =>
      have hmem : a ∈ me.abilities := castScan_mem _ _ _ _ _ heq
      exact ⟨⟨le_refl _, rfl, rfl⟩,
        applyEffects_evol a.effects _ op (hab a hmem) hop1 hop2⟩

theorem clampDeath_nonneg (f : Fighter) : 0 ≤ (clampDeath f).state.hp := by
  unfold clampDeath
  split
  · show (0 : ℚ) ≤ 0
    exact le_refl 0
  · exact le_of_lt (not_le.mp (by assumption))

theorem clampDeath_le_max (f : Fighter) : (clampDeath f).state.hp ≤ max f.state.hp 0 := by
  unfold clampDeath
  split
  · exact le_max_right _ _
  · exact le_max_left _ _

/-- Nothing in a fighter's configuration can raise hp: nonnegative
resistances, nonnegative dps on every active DoT record, and nonnegative
damage amounts in every ability's effect list. -/
def tameFighter (f : Fighter) : Prop :=
  0 ≤ f.base.physicalResistance ∧ 0 ≤ f.base.magicalResistance
  ∧ (∀ d ∈ f.state.dots, 0 ≤ d.dps)
  ∧ (∀ a ∈ f.abilities, ∀ e ∈ a.effects, nonHealing e)

/-- Both fighters tame, and every in-flight projectile's effect list free of
negative damage amounts. -/
def tameWorld (w : World) : Prop :=
  tameFighter w.fA ∧ tameFighter w.fB ∧ ∀ p ∈ w.projectiles, ∀ e ∈ p.effects, nonHealing e

/-- C5 (amended): at the end of every tick each fighter's hp is ≥ 0 — damage
may drive it transiently negative inside the tick, and the hp-floor pass
clamps it — unconditionally; and in a world whose damage amounts, DoT dps and
resistances are all nonnegative, no engine operation of the tick ever raises
hp above `max(previous hp, 0)`, so hp once clamped to 0 stays 0. (Amended
from the claim by the nonnegativity proviso: the engine never validates
effect amounts, and a Damage effect with a negative amount — or a negative
resistance below −100 — makes `applyEffects` a healing operation, see the
counterexample.) -/
theorem C5_hp_floor (w : World) (dt pow02 : ℚ) (dirA dirB : Vec) :
    0 ≤ (tick dt pow02 dirA dirB w).fA.state.hp
    ∧ 0 ≤ (tick dt pow02 dirA dirB w).fB.state.hp
    ∧ (tameWorld w →
        (tick dt pow02 dirA dirB w).fA.state.hp ≤ max w.fA.state.hp 0
        ∧ (tick dt pow02 dirA dirB w).fB.state.hp ≤ max w.fB.state.hp 0) := by
  refine ⟨clampDeath_nonneg _, clampDeath_nonneg _, ?_⟩
  intro ht
  obtain ⟨⟨hA1, hA2, hAdots, hAab⟩, ⟨hB1, hB2, hBdots, hBab⟩, htp⟩ := ht
  set s1 := (statusStep dt w.fA).1 with hs1
  set s2 := (statusStep dt w.fB).1 with hs2
  set pr := projectilePhase dt w.projectiles s1 s2 with hproj
  set a1 := aiStep dt pow02 dirA w.bounds pr.2.1 pr.2.2 with ha1
  set a2 := aiStep dt pow02 dirB w.bounds a1.2 a1.1 with ha2
  have e1 : hpEvol w.fA s1 := statusStep_evol dt w.fA hAdots
  have e2 : hpEvol w.fB s2 := statusStep_evol dt w.fB hBdots
  have e3 := projectilePhase_evol dt w.projectiles s1 s2 htp
    (by rw [e1.2.1]; exact hA1) (by rw [e1.2.1]; exact hA2)
    (by rw [e2.2.1]; exact hB1) (by rw [e2.2.1]; exact hB2)
  have f1 : hpEvol w.fA pr.2.1 := hpEvol_trans e1 e3.1
  have f2 : hpEvol w.fB pr.2.2 := hpEvol_trans e2 e3.2
  have e4 := aiStep_evol dt pow02 dirA w.bounds pr.2.1 pr.2.2
    (by rw [f1.2.2]; exact hAab)
    (by rw [f2.2.1]; exact hB1) (by rw [f2.2.1]; exact hB2)
  have g1 : hpEvol w.fA a1.1 := hpEvol_trans f1 e4.1
  have g2 : hpEvol w.fB a1.2 := hpEvol_trans f2 e4.2
  have e5 := aiStep_evol dt pow02 dirB w.bounds a1.2 a1.1
    (by rw [g2.2.2]; exact hBab)
    (by rw [g1.2.1]; exact hA1) (by rw [g1.2.1]; exact hA2)
  have k1 : hpEvol w.fB a2.1 := hpEvol_trans g2 e5.1
  have k2 : hpEvol w.fA a2.2 := hpEvol_trans g1 e5.2
  constructor
  · show (clampDeath a2.2).state.hp ≤ max w.fA.state.hp 0
    exact le_trans (clampDeath_le_max _) (max_le_max k2.1 (le_refl 0))
  · show (clampDeath a2.1).state.hp ≤ max w.fB.state.hp 0
    exact le_trans (clampDeath_le_max _) (max_le_max k1.1 (le_refl 0))

/-- Counterexample to C5 as stated: `applyEffects` — an engine operation the
tick runs for projectile hits and casts — applied to a fighter already
clamped at 0 hp with a Damage effect of amount −10 (the engine never
validates amounts) raises the hp to 10. -/
theorem C5_hp_floor_cex :
    (applyEffects [Effect.damage (-10) .physical] sampleFighter
        (withPhysRes ({sampleFighter with state.hp := 0}) 0)).state.hp = 10 := by
  norm_num [applyEffects, applyEffect, isImmune, orDefault, withPhysRes,
    sampleFighter, sampleState, sampleStats, List.foldl]

/-! ## C9 — exponential velocity decay -/

/-- Squared magnitude of the velocity of a movement state. -/
def velMagSq (s : MoveState) : ℝ := s.vx * s.vx + s.vy * s.vy

theorem moveSteps_vel (dts : List ℝ) : ∀ s : MoveState,
    (moveSteps dts s).vx = s.vx * (0.2 : ℝ) ^ dts.sum
    ∧ (moveSteps dts s).vy = s.vy * (0.2 : ℝ) ^ dts.sum := by
  induction dts with
  | nil =>
    intro s
    simp [moveSteps, Real.rpow_zero]
  | cons d rest ih =>
    intro s
    have hm : moveSteps (d :: rest) s = moveSteps rest (moveStep d s) := rfl
    obtain ⟨hx, hy⟩ := ih (moveStep d s)
    rw [hm, hx, hy]
    have hsum : (d :: rest).sum = d + rest.sum := by rw [List.sum_cons]
    rw [hsum, Real.rpow_add (by norm_num : (0 : ℝ) < 0.2)]
    constructor <;> simp [moveStep] <;> ring

/-- C9: each movement step advances the position by velocity×dt, then
multiplies both velocity axes by `0.2^dt`; for every positive dt the factor
lies strictly between 0 and 1, so a nonzero velocity strictly decreases in
(squared) magnitude at every tick and never becomes exactly zero after any
finite sequence of positive steps; and the composite factor over a sequence
of steps is `0.2^(sum of the steps)`, so the decay depends only on the total
elapsed time (frame-rate independence). -/
theorem C9_velocity_decay (s : MoveState) (dt : ℝ) (dts : List ℝ) :
    (moveStep dt s).px = s.px + s.vx * dt
    ∧ (moveStep dt s).py = s.py + s.vy * dt
    ∧ (moveStep dt s).vx = s.vx * (0.2 : ℝ) ^ dt
    ∧ (moveStep dt s).vy = s.vy * (0.2 : ℝ) ^ dt
    ∧ (0 < dt → ¬(s.vx = 0 ∧ s.vy = 0) → velMagSq (moveStep dt s) < velMagSq s)
    ∧ ((∀ d ∈ dts, 0 < d) → ¬(s.vx = 0 ∧ s.vy = 0) →
        ¬((moveSteps dts s).vx = 0 ∧ (moveSteps dts s).vy = 0))
    ∧ (moveSteps dts s).vx = s.vx * (0.2 : ℝ) ^ dts.sum
    ∧ (moveSteps dts s).vy = s.vy * (0.2 : ℝ) ^ dts.sum := by
  obtain ⟨hvx, hvy⟩ := moveSteps_vel dts s
  refine ⟨rfl, rfl, rfl, rfl, ?_, ?_, hvx, hvy⟩
  · intro hdt hnz
    have hc0 : 0 < (0.2 : ℝ) ^ dt := Real.rpow_pos_of_pos (by norm_num) dt
    have hc1 : (0.2 : ℝ) ^ dt < 1 :=
      Real.rpow_lt_one (by norm_num) (by norm_num) hdt
    have hpos : 0 < s.vx * s.vx + s.vy * s.vy := by
      rcases not_and_or.mp hnz with h | h
      · nlinarith [mul_self_pos.mpr h, mul_self_nonneg s.vy]
      · nlinarith [mul_self_pos.mpr h, mul_self_nonneg s.vx]
    have hmag : velMagSq (moveStep dt s)
        = (s.vx * s.vx + s.vy * s.vy) * ((0.2 : ℝ) ^ dt * (0.2 : ℝ) ^ dt) := by
      simp [velMagSq, moveStep]
      ring
    rw [hmag]
    have hcc : (0.2 : ℝ) ^ dt * (0.2 : ℝ) ^ dt < 1 := by nlinarith
    calc (s.vx * s.vx + s.vy * s.vy) * ((0.2 : ℝ) ^ dt * (0.2 : ℝ) ^ dt)
        < (s.vx * s.vx + s.vy * s.vy) * 1 := by
          exact mul_lt_mul_of_pos_left hcc hpos
      _ = velMagSq s := by rw [mul_one]; rfl
  · intro hpos hnz
    have hc0 : 0 < (0.2 : ℝ) ^ dts.sum := Real.rpow_pos_of_pos (by norm_num) _
    rcases not_and_or.mp hnz with h | h
    · intro hcon
      exact h (by
        have := hcon.1
        rw [hvx] at this
        exact (mul_eq_zero.mp this).resolve_right (ne_of_gt hc0))
    · intro hcon
      exact h (by
        have := hcon.2
        rw [hvy] at this
        exact (mul_eq_zero.mp this).resolve_right (ne_of_gt hc0))

/-! ## C10 — degenerate projectile spawn is total -/

/-- C10: the direction-normalising divisor of `spawnProjectile` is never
zero — a coinciding from/to pair makes `Math.hypot` return 0 and the `|| 1`
guard substitutes 1 — so the degenerate spawn gets velocity (0,0) at its
spawn point and no division by zero occurs; a zero-velocity projectile never
moves during the projectile pass, expires dead with no hits once its ttl is
exhausted, and any fighter it does hit lies within the fixed 18px radius of
its (unchanged) spawn position. -/
theorem stepProjectile_dead (dt : ℚ) (fpos : List Vec) (p : Projectile)
    (hal : p.alive = false) : stepProjectile dt fpos p = (p, []) := by
  rw [stepProjectile]
  simp [hal]

theorem stepProjectile_expired (dt : ℚ) (fpos : List Vec) (p : Projectile)
    (hal : p.alive = true) (ht : p.ttl - dt ≤ 0) :
    stepProjectile dt fpos p = ({p with ttl := p.ttl - dt, alive := false}, []) := by
  rw [stepProjectile]
  simp [hal, ht]

theorem C10_spawn_degenerate (pfrom : ℝ × ℝ) (pto : ℝ × ℝ) (speed maxTime : ℝ)
    (dt : ℚ) (fpos : List Vec) (p : Projectile) :
    spawnDivisor pfrom pto ≠ 0
    ∧ spawnDivisor pfrom pfrom = 1
    ∧ (spawnProjectile pfrom pfrom speed maxTime).vx = 0
    ∧ (spawnProjectile pfrom pfrom speed maxTime).vy = 0
    ∧ (spawnProjectile pfrom pfrom speed maxTime).px = pfrom.1
    ∧ (spawnProjectile pfrom pfrom speed maxTime).py = pfrom.2
    ∧ (p.vel = zeroVec → (stepProjectile dt fpos p).1.pos = p.pos)
    ∧ (p.alive = true → p.ttl - dt ≤ 0 →
        (stepProjectile dt fpos p).1.alive = false ∧ (stepProjectile dt fpos p).2 = [])
    ∧ (p.vel = zeroVec → ∀ i ∈ (stepProjectile dt fpos p).2,
        ∃ v, fpos[i]? = some v ∧ dist2 p.pos v < 18 ^ 2) := by
  have hdiv1 : spawnDivisor pfrom pfrom = 1 := by
    simp [spawnDivisor]
  have hposz : p.vel = zeroVec →
      (⟨p.pos.x + p.vel.x * dt, p.pos.y + p.vel.y * dt⟩ : Vec) = p.pos := by
    intro hvz
    rw [hvz]
    show (⟨p.pos.x + 0 * dt, p.pos.y + 0 * dt⟩ : Vec) = p.pos
    simp
  refine ⟨?_, hdiv1, ?_, ?_, rfl, rfl, ?_, ?_, ?_⟩
  · unfold spawnDivisor
    dsimp only
    split
    · norm_num
    · assumption
  · show (pfrom.1 - pfrom.1) / spawnDivisor pfrom pfrom * orDefaultR speed 220 = 0
    rw [sub_self]
    simp
  · show (pfrom.2 - pfrom.2) / spawnDivisor pfrom pfrom * orDefaultR speed 220 = 0
    rw [sub_self]
    simp
  · intro hvz
    by_cases hal : p.alive = true
    · by_cases ht : p.ttl - dt ≤ 0
      · rw [stepProjectile_expired dt fpos p hal ht]
      · rw [stepProjectile_live dt fpos p hal (lt_of_not_le ht)]
        exact hposz hvz
    · rw [stepProjectile_dead dt fpos p (by revert hal; cases p.alive <;> simp)]
  · intro hal ht
    rw [stepProjectile_expired dt fpos p hal ht]
    exact ⟨rfl, rfl⟩
  · intro hvz i hi
    by_cases hal : p.alive = true
    · by_cases ht : p.ttl - dt ≤ 0
      · rw [stepProjectile_expired dt fpos p hal ht] at hi
        simp at hi
      · rw [stepProjectile_live dt fpos p hal (lt_of_not_le ht)] at hi
        have hi2 : i ∈ projColl p.pos fpos := by
          rw [← hposz hvz]
          exact hi
        exact (projColl_mem _ _ _).mp hi2
    · rw [stepProjectile_dead dt fpos p (by revert hal; cases p.alive <;> simp)] at hi
      simp at hi

end BattleSandbox



